import Mathlib

/-!
Verification of the element-tree layer of the `serde-stream-xml` repository
(`src/element.rs`): the `Element`/`Xml` data model, the value type-guessing
heuristics (`type_guess`, `type_guess_val`), the structured-value serializer
(`impl Serialize for Element`), the text renderer (`fmt_elem`), element
equality (`#[derive(PartialEq)]`), and the `Deserialize` implementation.

Machine integers and IEEE floats are not computed with: the float guess only
needs grammar acceptance, so a guessed float value carries the source token it
was parsed from.  Rust's Unicode-aware `str::to_lowercase` is modelled on its
ASCII behaviour, which is all the repository's values exercise.
-/

/-! ## Models of the Rust string primitives used by `element.rs` -/

/-- Rust `char::is_whitespace`: the Unicode `White_Space` code points. -/
def isRustWhitespace (c : Char) : Bool :=
  let n := c.toNat
  (0x9 ≤ n && n ≤ 0xD) || n == 0x20 || n == 0x85 || n == 0xA0 || n == 0x1680 ||
    (0x2000 ≤ n && n ≤ 0x200A) || n == 0x2028 || n == 0x2029 || n == 0x202F ||
    n == 0x205F || n == 0x3000

/-- Helper for `split_whitespace`: walks the characters, `acc` holds the
current (reversed) pending token. -/
def splitWsAux : List Char → List Char → List String
  | [], acc => if acc.isEmpty then [] else [String.mk acc.reverse]
  | c :: rest, acc =>
    if isRustWhitespace c then
      if acc.isEmpty then splitWsAux rest []
      else String.mk acc.reverse :: splitWsAux rest []
    else splitWsAux rest (c :: acc)

/-- Rust `str::split_whitespace` (collected): tokens separated by Unicode
whitespace, empty tokens dropped. -/
def splitWhitespace (s : String) : List String := splitWsAux s.data []

/-- Rust `str::trim`: strip Unicode whitespace from both ends. -/
def rustTrim (s : String) : String :=
  String.mk (((s.data.dropWhile isRustWhitespace).reverse.dropWhile isRustWhitespace).reverse)

/-- ASCII lower-casing of one character. -/
def asciiLower (c : Char) : Char :=
  if 'A' ≤ c && c ≤ 'Z' then Char.ofNat (c.toNat + 32) else c

/-- Model of Rust `str::to_lowercase`, restricted to its ASCII action (the
source function is Unicode-aware; no claim depends on non-ASCII casing). -/
def toLowercase (s : String) : String := String.mk (s.data.map asciiLower)

/-- Rust `bool::from_str`: exactly the literals `true` and `false`. -/
def parseBool (s : String) : Option Bool :=
  if s = "true" then some true else if s = "false" then some false else none

def isAsciiDigit (c : Char) : Bool := '0' ≤ c && c ≤ '9'

def digitsToNat (l : List Char) : Nat := l.foldl (fun a c => a * 10 + (c.toNat - 48)) 0

/-- Rust `u64::from_str`: optional `+` sign, then one or more ASCII digits,
rejecting values that overflow 64 bits. -/
def parseU64 (s : String) : Option Nat :=
  let l := match s.data with
    | '+' :: rest => rest
    | l => l
  if l ≠ [] ∧ l.all isAsciiDigit then
    let n := digitsToNat l
    if n < 2 ^ 64 then some n else none
  else none

/-- Drop one leading `+` or `-` sign. -/
def stripSign : List Char → List Char
  | '+' :: rest => rest
  | '-' :: rest => rest
  | l => l

/-- Case-insensitive specials accepted by Rust `f32::from_str`, after the
sign: `inf`, `infinity`, `nan`. -/
def isF32Special (l : List Char) : Bool :=
  let low := l.map asciiLower
  low == "inf".data || low == "infinity".data || low == "nan".data

/-- What may follow a float mantissa: nothing, or `e`/`E`, an optional sign
and at least one digit consuming the rest. -/
def expTailOk : List Char → Bool
  | [] => true
  | c :: rest =>
    (c == 'e' || c == 'E') &&
      (let rest2 := match rest with
        | '+' :: r => r
        | '-' :: r => r
        | r => r
       !rest2.isEmpty && rest2.all isAsciiDigit)

/-- A (sign-stripped) decimal float mantissa with optional exponent:
`digits [. digits] [exp]` with at least one mantissa digit. -/
def isF32Number (l : List Char) : Bool :=
  let intPart := l.takeWhile isAsciiDigit
  let rest := l.drop intPart.length
  match rest with
  | [] => !intPart.isEmpty
  | '.' :: rest2 =>
    let frac := rest2.takeWhile isAsciiDigit
    let rest3 := rest2.drop frac.length
    (!intPart.isEmpty || !frac.isEmpty) && expTailOk rest3
  | _ => !intPart.isEmpty && expTailOk rest

/-- Acceptance of Rust `f32::from_str`: optional sign, then either a special
value or a decimal number with optional exponent.  Only acceptance is
modelled; a guessed float carries its source token instead of an IEEE value,
and no claim compares floats arising from different tokens. -/
def parsesF32 (s : String) : Bool :=
  let l := stripSign s.data
  isF32Special l || isF32Number l

/-! ## The data model (`Element`, `Xml`, lines 26-41)

`AttrMap` and the prefix `HashMap` are modelled as association lists whose
list order stands for the map's (configuration- or hash-dependent) iteration
order; map equality is order-insensitive (`mapEqvB` below).  `Vec<Xml>` is
the mutual `XmlList` so that all recursion over the tree is structural. -/

abbrev AttrKey : Type := String × Option String

mutual
inductive Xml : Type where
  | elementNode : Element → Xml
  | characterNode : String → Xml
  | cdataNode : String → Xml
  | commentNode : String → Xml
  | piNode : String → Xml
inductive XmlList : Type where
  | nil : XmlList
  | cons : Xml → XmlList → XmlList
inductive Element : Type where
  | mk (name : String) (ns : Option String)
      (attributes : List (AttrKey × String))
      (children : XmlList)
      (prefixes : List (String × String))
      (defaultNs : Option String) : Element
end

def Element.name : Element → String
  | .mk n _ _ _ _ _ => n

def Element.ns : Element → Option String
  | .mk _ n _ _ _ _ => n

def Element.attributes : Element → List (AttrKey × String)
  | .mk _ _ a _ _ _ => a

def Element.children : Element → XmlList
  | .mk _ _ _ c _ _ => c

def Element.prefixes : Element → List (String × String)
  | .mk _ _ _ _ p _ => p

def Element.defaultNs : Element → Option String
  | .mk _ _ _ _ _ d => d

def XmlList.toList : XmlList → List Xml
  | .nil => []
  | .cons x xs => x :: xs.toList

def XmlList.length : XmlList → Nat
  | .nil => 0
  | .cons _ xs => xs.length + 1

/-- `Element::new` (lines 282-309): the two standard prefix bindings, the
attribute triples keyed, no children, and `default_ns` copied from `ns`. -/
def elementNew (name : String) (ns : Option String)
    (attrs : List (String × Option String × String)) : Element :=
  .mk name ns (attrs.map fun t => ((t.1, t.2.1), t.2.2)) .nil
    [("http://www.w3.org/XML/1998/namespace", "xml"),
     ("http://www.w3.org/2000/xmlns/", "xmlns")]
    ns

/-! ## Structured values and the type-guessing heuristics -/

/-- A schema-less structured value (JSON-like).  A guessed float carries the
source token it was parsed from; map entries are kept in emission order. -/
inductive SValue : Type where
  | unit : SValue
  | bool : Bool → SValue
  | uint : Nat → SValue
  | float : String → SValue
  | str : String → SValue
  | seq : List SValue → SValue
  | map : List (String × SValue) → SValue

/-- The entry sequence `type_guess` (lines 64-97) emits for one attribute:
boolean, unsigned-integer and float guesses in order, then the two-token
numeric/unit split, then the string fallback. -/
def type_guess (key val : String) : List (String × SValue) :=
  match parseBool val with
  | some value => [(key, .bool value)]
  | none =>
  match parseU64 val with
  | some value => [(key, .uint value)]
  | none =>
  if parsesF32 val then [(key, .float val)]
  else
    match splitWhitespace val with
    | [p0, p1] =>
      if parsesF32 p0 then
        [(key, .float p0), (key ++ "_unit", .str (toLowercase p1))]
      else [(key, .str val)]
    | _ => [(key, .str val)]

/-- The value `type_guess_val` (lines 99-110) emits for a lone text fragment:
unsigned-integer, boolean and float guesses in order, then the string
fallback. -/
def type_guess_val (val : String) : SValue :=
  match parseU64 val with
  | some value => .uint value
  | none =>
  match parseBool val with
  | some value => .bool value
  | none =>
  if parsesF32 val then .float val else .str val

/-! ## Grouping and child partitioning (lines 44-50 and 131-146) -/

/-- `map_collect` (lines 44-50): append to the entry of `k`, or insert a new
singleton entry.  The `HashMap` is modelled as an association list kept in
first-insertion order; the map's own unspecified iteration order is
reintroduced by the serializer's `GroupOrder` parameter. -/
def map_collect {V : Type} (m : List (String × List V)) (k : String) (v : V) :
    List (String × List V) :=
  match m with
  | [] => [(k, [v])]
  | (k2, vs) :: rest =>
    if k2 = k then (k2, vs ++ [v]) :: rest else (k2, vs) :: map_collect rest k v

def groupPairsAux {V : Type} (acc : List (String × List V)) :
    List (String × V) → List (String × List V)
  | [] => acc
  | (k, v) :: rest => groupPairsAux (map_collect acc k v) rest

/-- Group a keyed list with `map_collect`, left to right. -/
def groupPairs {V : Type} (l : List (String × V)) : List (String × List V) :=
  groupPairsAux [] l

/-- The element children of a child list with their tag names, in document
order (the `Xml::ElementNode` arm of the partition loop, line 136). -/
def elemKids : XmlList → List (String × Element)
  | .nil => []
  | .cons (.elementNode el) xs => (el.name, el) :: elemKids xs
  | .cons _ xs => elemKids xs

/-- Comment children in document order (line 137). -/
def collectComments : XmlList → List String
  | .nil => []
  | .cons (.commentNode c) xs => c :: collectComments xs
  | .cons _ xs => collectComments xs

/-- Text fragments (lines 138-143): `CharacterNode` children trimmed, empty
results discarded.  The catch-all `_ => continue` arm (line 144) drops
`CDATANode` and `PINode` children. -/
def collectTexts : XmlList → List String
  | .nil => []
  | .cons (.characterNode t) xs =>
    let tt := rustTrim t
    if tt = "" then collectTexts xs else tt :: collectTexts xs
  | .cons _ xs => collectTexts xs

/-! ## The structured-value serializer (`impl Serialize for Element`) -/

/-- One fallible call on the underlying serde value sink. -/
inductive SinkOp : Type where
  | unitOp : SinkOp
  | mapStart : Nat → SinkOp
  | entry : String → SValue → SinkOp
  | mapEnd : SinkOp
  | u64Op : Nat → SinkOp
  | boolOp : Bool → SinkOp
  | f32Op : String → SinkOp
  | strOp : String → SinkOp
  | strSeqOp : List String → SinkOp

/-- Run one sink call against the sink-failure oracle. -/
def sinkCheck {E : Type} (oracle : SinkOp → Option E) (op : SinkOp) : Except E Unit :=
  match oracle op with
  | some e => .error e
  | none => .ok ()

/-- Emit map entries in order, stopping at the first sink error. -/
def emitEntries {E : Type} (oracle : SinkOp → Option E) :
    List (String × SValue) → Except E Unit
  | [] => .ok ()
  | (k, v) :: rest => do
    sinkCheck oracle (.entry k v)
    emitEntries oracle rest

/-- `type_guess_val` together with its sink calls (`serialize_u64`,
`serialize_bool`, `serialize_f32`, `serialize_str`). -/
def typeGuessValE {E : Type} (oracle : SinkOp → Option E) (val : String) :
    Except E SValue :=
  match parseU64 val with
  | some n => do
    sinkCheck oracle (.u64Op n)
    pure (.uint n)
  | none =>
  match parseBool val with
  | some b => do
    sinkCheck oracle (.boolOp b)
    pure (.bool b)
  | none =>
  if parsesF32 val then do
    sinkCheck oracle (.f32Op val)
    pure (.float val)
  else do
    sinkCheck oracle (.strOp val)
    pure (.str val)

/-- The entry emitted for one same-name group of serialized element children
(lines 159-165): nothing for an empty group, the single member's value, else
the sequence of member values. -/
def groupEntry (k : String) : List SValue → List (String × SValue)
  | [] => []
  | [v] => [(k, v)]
  | vs => [(k, .seq vs)]

/-- The `_comment` entry (lines 166-170). -/
def commentEntries : List String → List (String × SValue)
  | [] => []
  | [c] => [("_comment", .str c)]
  | cs => [("_comment", .seq (cs.map SValue.str))]

/-- The `_body` entry (lines 171-175). -/
def textEntries : List String → List (String × SValue)
  | [] => []
  | [t] => [("_body", .str t)]
  | ts => [("_body", .seq (ts.map SValue.str))]

/-- One possible iteration order of the `HashMap` of element-child groups
(line 159): a rearrangement applied to the groups collected in
first-appearance order.  Theorems restrict it to permutations, which is all
`std::collections::HashMap` guarantees. -/
def GroupOrder : Type := List (String × List SValue) → List (String × List SValue)

mutual
/-- `impl Serialize for Element` (lines 114-178) run against the sink-failure
oracle; `π` is the hash-map iteration order of the element-child groups.  The
recursion is restructured for structural termination: element children are
serialized first (`serializeKidsE`, document order) and the resulting values
grouped by tag name; this emits the same entries as grouping the children and
then serializing each group, because `map_collect` looks only at tag names. -/
def serializeElemE {E : Type} (π : GroupOrder) (oracle : SinkOp → Option E) :
    Element → Except E SValue
  | .mk _ _ attrs children _ _ =>
    if attrs.length = 0 ∧ children.length = 0 then do
      sinkCheck oracle .unitOp
      pure .unit
    else
      let attrNum := attrs.length + children.length
      let comments := collectComments children
      let texts := collectTexts children
      if (groupPairs (elemKids children)).length = 0 ∧ comments.length = 0 ∧
          attrs.length = 0 then
        match texts with
        | [t] => typeGuessValE oracle t
        | ts => do
          sinkCheck oracle (.strSeqOp ts)
          pure (.seq (ts.map SValue.str))
      else do
        sinkCheck oracle (.mapStart attrNum)
        let attrEntries := (attrs.map fun p => type_guess p.1.1 p.2).flatten
        emitEntries oracle attrEntries
        let kidVals ← serializeKidsE π oracle children
        let grpEntries := ((π (groupPairs kidVals)).map fun p => groupEntry p.1 p.2).flatten
        emitEntries oracle grpEntries
        emitEntries oracle (commentEntries comments)
        emitEntries oracle (textEntries texts)
        sinkCheck oracle .mapEnd
        pure (.map (attrEntries ++ grpEntries ++ commentEntries comments ++ textEntries texts))

/-- Serialize the element children of a child list in document order, pairing
each value with its tag name (the material of the groups of lines 159-165). -/
def serializeKidsE {E : Type} (π : GroupOrder) (oracle : SinkOp → Option E) :
    XmlList → Except E (List (String × SValue))
  | .nil => pure []
  | .cons x xs =>
    match x with
    | .elementNode el => do
      let v ← serializeElemE π oracle el
      let rest ← serializeKidsE π oracle xs
      pure ((el.name, v) :: rest)
    | _ => serializeKidsE π oracle xs
end

/-- The sink of a structured-value writer that cannot fail. -/
def noFail : SinkOp → Option Empty := fun _ => none

/-- The structured value of a successful serialization: the serializer run
against a sink that cannot fail. -/
def serializeElem (π : GroupOrder) (el : Element) : SValue :=
  match serializeElemE π noFail el with
  | .ok v => v
  | .error e => e.elim

/-- The identity group order. -/
def orderId : GroupOrder := fun l => l

/-! ## Element equality (`#[derive(PartialEq)]`, line 26) -/

/-- `std::collections::HashMap` equality, used by the derived `PartialEq`
for the attribute and prefix maps: same size, and every entry of the first
looked up in the second with an equal value (order-insensitive). -/
def mapEqvB {K V : Type} [BEq K] [BEq V] (a b : List (K × V)) : Bool :=
  a.length == b.length &&
    a.all fun p =>
      match List.lookup p.1 b with
      | some v => v == p.2
      | none => false

mutual
/-- Derived structural equality of `Xml` (the enum lives in the crate root,
outside `src/`; its derived `PartialEq` is structural, with elements compared
by the `Element` equality). -/
def xmlBEq : Xml → Xml → Bool
  | .elementNode a, .elementNode b => elemBEq a b
  | .characterNode a, .characterNode b => a == b
  | .cdataNode a, .cdataNode b => a == b
  | .commentNode a, .commentNode b => a == b
  | .piNode a, .piNode b => a == b
  | _, _ => false

/-- `Vec<Xml>` equality: pointwise. -/
def xmlListBEq : XmlList → XmlList → Bool
  | .nil, .nil => true
  | .cons x xs, .cons y ys => xmlBEq x y && xmlListBEq xs ys
  | _, _ => false

/-- The `#[derive(PartialEq)]` of `Element` (line 26): all six fields
participate, in declaration order; the attribute and prefix maps compare as
maps, the child vector pointwise. -/
def elemBEq : Element → Element → Bool
  | .mk n1 ns1 a1 c1 p1 d1, .mk n2 ns2 a2 c2 p2 d2 =>
    n1 == n2 && ns1 == ns2 && mapEqvB a1 a2 && xmlListBEq c1 c2 &&
      mapEqvB p1 p2 && d1 == d2
end

/-! ## Text rendering (`fmt_elem`, lines 181-248)

The crate-root `escape` and the `Display` of non-element `Xml` nodes live
outside `src/`, so they are taken as parameters (`esc`, `disp`); `none`
models the namespace-prefix `expect`/`unwrap` panics. -/

def XmlList.isEmpty : XmlList → Bool
  | .nil => true
  | .cons _ _ => false

/-- Does the attribute map hold a key with local name `xmlns`
(lines 201-205)? -/
def hasXmlnsAttr (attrs : List (AttrKey × String)) : Bool :=
  attrs.any fun p => p.1.1 == "xmlns"

/-- The default-namespace declaration fragment (lines 200-215): empty when an
explicit `xmlns` attribute exists; otherwise declared for a parentless
element with a set default namespace, or when the parent's default namespace
differs from this element's. -/
def xmlnsDecl (attrs : List (AttrKey × String)) (defaultNs : Option String)
    (parent : Option Element) : String :=
  if hasXmlnsAttr attrs then ""
  else
    match parent, defaultNs with
    | none, some ns => " xmlns=\x27" ++ ns ++ "\x27"
    | some p, dns =>
      if p.defaultNs ≠ dns then " xmlns=\x27" ++ dns.getD "" ++ "\x27" else ""
    | none, none => ""

/-- Render the attribute list (lines 217-225). -/
def fmtAttrs (esc : String → String) (allP : List (String × String)) :
    List (AttrKey × String) → Option String
  | [] => pure ""
  | ((nm, nsO), value) :: rest => do
    let s ← match nsO with
      | some ns => do
        let p ← List.lookup ns allP
        pure (" " ++ p ++ ":" ++ nm ++ "=\x27" ++ esc value ++ "\x27")
      | none => pure (" " ++ nm ++ "=\x27" ++ esc value ++ "\x27")
    let restS ← fmtAttrs esc allP rest
    pure (s ++ restS)

/-- The output of `fmt_elem` before the children (lines 187-225): the tag
open with optional namespace prefix, the optional `xmlns` declaration, and
the attributes, in that write order. -/
def openPart (esc : String → String) :
    Element → Option Element → List (String × String) → Option String
  | .mk nm ns attrs _ prefixes defaultNs, parent, base => do
    let allP := prefixes ++ base
    let tagOpen ←
      (if ns ≠ defaultNs then do
        let p ← List.lookup (ns.getD "") allP
        pure ("<" ++ p ++ ":" ++ nm)
      else pure ("<" ++ nm))
    let attrsPart ← fmtAttrs esc allP attrs
    pure (tagOpen ++ xmlnsDecl attrs defaultNs parent ++ attrsPart)

/-- The closing tag (lines 237-244), against the extended binding table. -/
def closePart : Element → List (String × String) → Option String
  | .mk nm ns _ _ _ defaultNs, allP =>
    if ns ≠ defaultNs then do
      let u ← ns
      let p ← List.lookup u allP
      pure ("</" ++ p ++ ":" ++ nm ++ ">")
    else pure ("</" ++ nm ++ ">")

mutual
/-- `fmt_elem` (lines 181-248): the open part, then either a self-closing
`/>` when there are no children, or `>`, the rendered children in document
order, and an explicit closing tag. -/
def fmt_elem (esc : String → String) (disp : Xml → String) :
    Element → Option Element → List (String × String) → Option String
  | el@(.mk _ _ _ children prefixes _), parent, base => do
    let pre ← openPart esc el parent base
    if children.isEmpty then
      pure (pre ++ "/>")
    else do
      let body ← fmtChildren esc disp el (prefixes ++ base) children
      let close ← closePart el (prefixes ++ base)
      pure (pre ++ ">" ++ body ++ close)

/-- Render one child (lines 231-235): an element child recurses with the
current element as parent and the extended binding table; any other node uses
the `Xml` `Display` parameter. -/
def fmtChild (esc : String → String) (disp : Xml → String) (parent : Element)
    (allP : List (String × String)) : Xml → Option String
  | .elementNode child => fmt_elem esc disp child (some parent) allP
  | other => pure (disp other)

/-- Render a child list in document order, concatenating. -/
def fmtChildren (esc : String → String) (disp : Xml → String) (parent : Element)
    (allP : List (String × String)) : XmlList → Option String
  | .nil => pure ""
  | .cons x xs => do
    let s ← fmtChild esc disp parent allP x
    let rest ← fmtChildren esc disp parent allP xs
    pure (s ++ rest)
end

/-- The `Display` of `Element` (lines 250-254): `fmt_elem` with no parent and
an empty inherited binding table. -/
def elementDisplay (esc : String → String) (disp : Xml → String) (el : Element) :
    Option String :=
  fmt_elem esc disp el none []

/-! ## Deserialization (`Deserialize for Element`, lines 52-61) -/

/-- `Deserialize for Element`: run the format's `deserialize_ignored_any` —
an external deserializer, abstracted as the `Except`-valued function
`ignoredAny` — and map any success to the fixed element
`Element::new("todo".to_owned(), None, vec![])`, ignoring the visited data. -/
def deserializeElement {I E : Type} (ignoredAny : I → Except E Unit) (input : I) :
    Except E Element :=
  (ignoredAny input).map fun _ => elementNew "todo" none []

/-- The element-child groups of an element as they enter entry emission:
the serialized child values grouped by tag name in first-appearance order
(before the hash map's iteration order is applied). -/
def serGroups (π : GroupOrder) (el : Element) : List (String × List SValue) :=
  groupPairs ((elemKids el.children).map fun p => (p.1, serializeElem π p.2))

/-- Concatenate rendered child fragments in order. -/
def strConcat : List String → String
  | [] => ""
  | s :: rest => s ++ strConcat rest

/-! ## Helper lemmas -/

theorem parseBool_cases {s : String} {b : Bool} (h : parseBool s = some b) :
    s = "true" ∨ s = "false" := by
  unfold parseBool at h
  split at h
  · left; assumption
  · split at h
    · right; assumption
    · exact absurd h (by simp)

/-! ## C1: the two-token numeric/unit split -/

/-- C1: when the boolean, unsigned-integer and float guesses all fail and the
attribute value splits on whitespace into exactly two tokens whose first
parses as a float, `type_guess` emits two entries — the numeric value under
the original key and the lower-cased second token under `<key>_unit` — while
`type_guess_val`, which never applies the split, emits the single original
string for the same input. -/
theorem type_guess_two_token_split (key val t1 t2 : String)
    (hb : parseBool val = none) (hu : parseU64 val = none)
    (hf : parsesF32 val = false) (hs : splitWhitespace val = [t1, t2])
    (h1 : parsesF32 t1 = true) :
    type_guess key val =
        [(key, .float t1), (key ++ "_unit", .str (toLowercase t2))] ∧
      type_guess_val val = .str val := by
  constructor
  · simp [type_guess, hb, hu, hf, hs, h1]
  · simp [type_guess_val, hb, hu, hf]

theorem type_guess_two_token_split_witness :
    (parseBool "200 MG" = none ∧ parseU64 "200 MG" = none ∧
      parsesF32 "200 MG" = false ∧ splitWhitespace "200 MG" = ["200", "MG"] ∧
      parsesF32 "200" = true) ∧
    (type_guess "dose" "200 MG" =
        [("dose", .float "200"), ("dose_unit", .str (toLowercase "MG"))] ∧
      type_guess_val "200 MG" = .str "200 MG") :=
  ⟨⟨by decide, by decide, by decide, by decide, by decide⟩,
    type_guess_two_token_split "dose" "200 MG" "200" "MG"
      (by decide) (by decide) (by decide) (by decide) (by decide)⟩

/-! ## C6: the single-value rule agrees on both paths -/

/-- C6: whenever any of the three single-value guesses succeeds, the
attribute path `type_guess` emits exactly one entry holding the same value
the lone-text path `type_guess_val` produces — the differing test order
(boolean first versus unsigned integer first) cannot disagree because no
string is both a boolean and an unsigned-integer literal — and when all
three fail `type_guess_val` falls through to the plain string; in
particular `"0"` is the unsigned integer `0`, `"true"` the boolean `true`,
and `"0.1"` a float on both paths. -/
theorem type_guess_paths_agree :
    (∀ key val,
      ((parseBool val).isSome ∨ (parseU64 val).isSome ∨ parsesF32 val = true) →
        type_guess key val = [(key, type_guess_val val)]) ∧
    (∀ val, parseBool val = none → parseU64 val = none → parsesF32 val = false →
      type_guess_val val = .str val) ∧
    type_guess_val "0" = .uint 0 ∧ type_guess_val "true" = .bool true ∧
    type_guess_val "0.1" = .float "0.1" ∧
    type_guess "k" "0" = [("k", .uint 0)] ∧
    type_guess "k" "true" = [("k", .bool true)] ∧
    type_guess "k" "0.1" = [("k", .float "0.1")] := by
  refine ⟨?_, ?_, rfl, rfl, rfl, rfl, rfl, rfl⟩
  · intro key val h
    cases hb : parseBool val with
    | some b =>
      have hu : parseU64 val = none := by
        rcases parseBool_cases hb with h2 | h2 <;> subst h2 <;> decide
      simp [type_guess, type_guess_val, hb, hu]
    | none =>
      cases hu : parseU64 val with
      | some n => simp [type_guess, type_guess_val, hb, hu]
      | none =>
        cases hf : parsesF32 val with
        | true => simp [type_guess, type_guess_val, hb, hu, hf]
        | false => simp [hb, hu, hf] at h
  · intro val hb hu hf
    simp [type_guess_val, hb, hu, hf]

theorem type_guess_paths_agree_witness :
    ((parseBool "0").isSome ∨ (parseU64 "0").isSome ∨ parsesF32 "0" = true) ∧
      type_guess "dose" "0" = [("dose", type_guess_val "0")] :=
  ⟨Or.inr (Or.inl (by decide)),
    type_guess_paths_agree.1 "dose" "0" (Or.inr (Or.inl (by decide)))⟩

/-! ## C3: empty element serializes as unit -/

/-- C3: an element with an empty attribute map and an empty child list
serializes as the unit value (lines 126-128), for every group order. -/
theorem serialize_empty_is_unit (π : GroupOrder) (el : Element)
    (ha : el.attributes = []) (hc : el.children = .nil) :
    serializeElem π el = .unit := by
  cases el with
  | mk nm ns attrs children pfx dns =>
    simp only [Element.attributes] at ha
    simp only [Element.children] at hc
    subst ha hc
    rfl

theorem serialize_empty_is_unit_witness :
    (Element.attributes (.mk "a" none [] .nil [] none) = [] ∧
      Element.children (.mk "a" none [] .nil [] none) = .nil) ∧
    serializeElem orderId (.mk "a" none [] .nil [] none) = .unit :=
  ⟨⟨rfl, rfl⟩, serialize_empty_is_unit orderId (.mk "a" none [] .nil [] none) rfl rfl⟩

/-! ## C10: deserialization ignores the input -/

/-- C10: for every deserializer input the format accepts as an ignorable
value, the `Deserialize` implementation returns the fixed element named
`todo` with no namespace, no attributes and no children; the result never
depends on the deserialized content. -/
theorem deserialize_fixed_todo {I E : Type} (ignoredAny : I → Except E Unit)
    (i1 i2 : I) (h1 : ignoredAny i1 = .ok ()) (h2 : ignoredAny i2 = .ok ()) :
    deserializeElement ignoredAny i1 = .ok (elementNew "todo" none []) ∧
      (elementNew "todo" none []).name = "todo" ∧
      (elementNew "todo" none []).ns = none ∧
      (elementNew "todo" none []).attributes = [] ∧
      (elementNew "todo" none []).children = .nil ∧
      deserializeElement ignoredAny i1 = deserializeElement ignoredAny i2 := by
  unfold deserializeElement
  rw [h1, h2]
  exact ⟨rfl, rfl, rfl, rfl, rfl, rfl⟩

theorem deserialize_fixed_todo_witness :
    ((fun _ : Unit => (Except.ok () : Except Unit Unit)) () = .ok ()) ∧
      deserializeElement (fun _ : Unit => (Except.ok () : Except Unit Unit)) () =
        .ok (elementNew "todo" none []) :=
  ⟨rfl,
    (deserialize_fixed_todo (fun _ : Unit => (Except.ok () : Except Unit Unit))
      () () rfl rfl).1⟩

/-! ## C4: what the derived equality compares -/

/-- C4 counterexample: two elements agreeing on name, namespace, attribute
map and children, but differing in the default-namespace field — and two
agreeing likewise but differing in the prefix-binding map — are unequal
under the derived `PartialEq`, so those two fields are not excluded from
equality. -/
theorem elem_eq_excludes_nothing_cex :
    (Element.name (.mk "a" none [] .nil [] none) =
        Element.name (.mk "a" none [] .nil [] (some "x")) ∧
      Element.ns (.mk "a" none [] .nil [] none) =
        Element.ns (.mk "a" none [] .nil [] (some "x")) ∧
      Element.attributes (.mk "a" none [] .nil [] none) =
        Element.attributes (.mk "a" none [] .nil [] (some "x")) ∧
      Element.children (.mk "a" none [] .nil [] none) =
        Element.children (.mk "a" none [] .nil [] (some "x"))) ∧
    elemBEq (.mk "a" none [] .nil [] none) (.mk "a" none [] .nil [] (some "x")) = false ∧
    elemBEq (.mk "a" none [] .nil [] none) (.mk "a" none [] .nil [("u", "p")] none) = false :=
  ⟨⟨rfl, rfl, rfl, rfl⟩, rfl, rfl⟩

/-- C4 amended: the derived equality compares all six fields — name,
namespace, attribute map (order-insensitively), children pointwise, the
prefix-binding map (order-insensitively) and the default namespace. -/
theorem elem_eq_all_fields (e1 e2 : Element) :
    elemBEq e1 e2 = true ↔
      (e1.name = e2.name ∧ e1.ns = e2.ns ∧
        mapEqvB e1.attributes e2.attributes = true ∧
        xmlListBEq e1.children e2.children = true ∧
        mapEqvB e1.prefixes e2.prefixes = true ∧
        e1.defaultNs = e2.defaultNs) := by
  cases e1 with
  | mk n1 ns1 a1 c1 p1 d1 =>
  cases e2 with
  | mk n2 ns2 a2 c2 p2 d2 =>
  simp [elemBEq, Element.name, Element.ns, Element.attributes, Element.children,
    Element.prefixes, Element.defaultNs, Bool.and_eq_true, beq_iff_eq, and_assoc]

/-! ## C5: which children become text fragments -/

/-- C5 counterexample: a lone CDATA child is dropped by the partition loop's
catch-all arm — it is not collected as a text fragment, and the element
serializes as the empty sequence instead of the fragment's string. -/
theorem cdata_not_collected_cex :
    collectTexts (.cons (.cdataNode "x") .nil) = [] ∧
    "x" ∉ collectTexts (.cons (.cdataNode "x") .nil) ∧
    serializeElem orderId (.mk "a" none [] (.cons (.cdataNode "x") .nil) [] none) =
      .seq [] ∧
    SValue.seq [] ≠ SValue.str "x" := by
  refine ⟨rfl, by simp [collectTexts], rfl, by simp⟩

/-- C5 amended: the serializer's text-fragment collection keeps exactly the
`CharacterNode` children, trimmed of surrounding whitespace with empty
results discarded, in document order; `CDATANode` (and `PINode`) children
are skipped entirely. -/
theorem collect_texts_characters_only : ∀ l : XmlList,
    collectTexts l = l.toList.filterMap fun x =>
      match x with
      | .characterNode t => if rustTrim t = "" then none else some (rustTrim t)
      | _ => none
  | .nil => rfl
  | .cons x xs => by
    have ih := collect_texts_characters_only xs
    cases x with
    | characterNode t =>
      by_cases h : rustTrim t = "" <;>
        simp [collectTexts, XmlList.toList, List.filterMap_cons, h, ih]
    | elementNode el => simp [collectTexts, XmlList.toList, List.filterMap_cons, ih]
    | cdataNode t => simp [collectTexts, XmlList.toList, List.filterMap_cons, ih]
    | commentNode t => simp [collectTexts, XmlList.toList, List.filterMap_cons, ih]
    | piNode t => simp [collectTexts, XmlList.toList, List.filterMap_cons, ih]

/-! ## C9: when the xmlns declaration is emitted -/

theorem optBind_eq_some {α β : Type} {x : Option α} {f : α → Option β} {b : β}
    (h : x >>= f = some b) : ∃ a, x = some a ∧ f a = some b := by
  cases x with
  | none => simp at h
  | some a => exact ⟨a, rfl, h⟩

theorem xmlnsFrag_ne_empty (u : String) : (" xmlns=\x27" ++ u ++ "\x27") ≠ "" := by
  intro h
  have h2 := congrArg String.length h
  simp [String.length_append] at h2
  exact absurd h2.2 (by decide)

/-- C9 counterexample: an element whose namespace equals its parent's
default namespace — so the claim demands no declaration — but whose own
default-namespace field differs still gets an `xmlns` declaration: the
renderer compares default-namespace fields (line 210), not the element's
namespace. -/
theorem xmlns_decl_cex :
    Element.ns (.mk "c" (some "a") [] .nil [("b", "q"), ("a", "p")] (some "b")) =
      Element.defaultNs (.mk "r" (some "a") [] .nil [] (some "a")) ∧
    hasXmlnsAttr
        (Element.attributes (.mk "c" (some "a") [] .nil [("b", "q"), ("a", "p")] (some "b"))) =
      false ∧
    fmt_elem (fun s => s) (fun _ => "")
        (.mk "c" (some "a") [] .nil [("b", "q"), ("a", "p")] (some "b"))
        (some (.mk "r" (some "a") [] .nil [] (some "a"))) [] =
      some "<p:c xmlns=\x27b\x27/>" :=
  ⟨rfl, rfl, rfl⟩

/-- C9 amended: rendering emits an `xmlns` declaration exactly when the
element has no attribute named `xmlns` and either it is rendered with no
parent and its default-namespace field is set, or its default-namespace
field differs from its parent's — the compared field is `default_ns`, not
the element's namespace; the declared URI is the element's default
namespace (empty when absent), and the declaration sits between the tag
open and the attributes in the open part of the rendering. -/
theorem xmlns_decl_condition :
    (∀ (attrs : List (AttrKey × String)) (dns : Option String) (parent : Option Element),
      xmlnsDecl attrs dns parent ≠ "" ↔
        (hasXmlnsAttr attrs = false ∧
          ((parent = none ∧ dns ≠ none) ∨
            (∃ p, parent = some p ∧ p.defaultNs ≠ dns)))) ∧
    (∀ (attrs : List (AttrKey × String)) (dns : Option String) (parent : Option Element),
      xmlnsDecl attrs dns parent ≠ "" →
        xmlnsDecl attrs dns parent = " xmlns=\x27" ++ dns.getD "" ++ "\x27") ∧
    (∀ (esc : String → String) (el : Element) (parent : Option Element)
        (base : List (String × String)) (pre : String),
      openPart esc el parent base = some pre →
        ∃ tagOpen attrsPart,
          pre = tagOpen ++ xmlnsDecl el.attributes el.defaultNs parent ++ attrsPart ∧
          fmtAttrs esc (el.prefixes ++ base) el.attributes = some attrsPart) := by
  refine ⟨?_, ?_, ?_⟩
  · intro attrs dns parent
    unfold xmlnsDecl
    by_cases hx : hasXmlnsAttr attrs
    · simp [hx]
    · simp only [hx, if_false]
      cases parent with
      | none =>
        cases dns with
        | none => simp
        | some u => simpa [hx] using xmlnsFrag_ne_empty u
      | some p =>
        by_cases hd : p.defaultNs = dns
        · simp [hd]
        · simpa [hd, hx, Ne.symm hd] using xmlnsFrag_ne_empty (dns.getD "")
  · intro attrs dns parent h
    unfold xmlnsDecl at h ⊢
    by_cases hx : hasXmlnsAttr attrs
    · simp [hx] at h
    · simp only [hx, if_false] at h ⊢
      cases parent with
      | none =>
        cases dns with
        | none => simp at h
        | some u => rfl
      | some p =>
        by_cases hd : p.defaultNs = dns
        · simp [hd] at h
        · simp [hd]
  · intro esc el parent base pre h
    cases el with
    | mk nm ns attrs ch pfx dns =>
      simp only [openPart] at h
      obtain ⟨tagOpen, hT, h2⟩ := optBind_eq_some h
      obtain ⟨attrsPart, hA, h3⟩ := optBind_eq_some h2
      simp only [Option.pure_def, Option.some.injEq] at h3
      exact ⟨tagOpen, attrsPart, h3.symm, hA⟩

theorem xmlns_decl_condition_witness :
    openPart (fun s => s) (.mk "a" (some "u") [] .nil [] (some "u")) none [] =
        some "<a xmlns=\x27u\x27" ∧
      ∃ tagOpen attrsPart,
        "<a xmlns=\x27u\x27" = tagOpen ++
            xmlnsDecl (Element.attributes (.mk "a" (some "u") [] .nil [] (some "u")))
              (Element.defaultNs (.mk "a" (some "u") [] .nil [] (some "u"))) none ++
            attrsPart ∧
          fmtAttrs (fun s => s)
              (Element.prefixes (.mk "a" (some "u") [] .nil [] (some "u")) ++ [])
              (Element.attributes (.mk "a" (some "u") [] .nil [] (some "u"))) =
            some attrsPart :=
  ⟨rfl, xmlns_decl_condition.2.2 (fun s => s)
    (.mk "a" (some "u") [] .nil [] (some "u")) none [] "<a xmlns=\x27u\x27" rfl⟩

/-! ## C8: self-closing versus explicit close -/

theorem fmtChildren_concat (esc : String → String) (disp : Xml → String)
    (parent : Element) (allP : List (String × String)) :
    ∀ (l : XmlList) (body : String),
      fmtChildren esc disp parent allP l = some body →
      ∃ renders : List String,
        List.Forall₂ (fun x r => fmtChild esc disp parent allP x = some r)
          l.toList renders ∧
        body = strConcat renders
  | .nil, body => by
    intro h
    simp only [fmtChildren, Option.pure_def, Option.some.injEq] at h
    exact ⟨[], by simp [XmlList.toList], by simp [strConcat, h.symm]⟩
  | .cons x xs, body => by
    intro h
    simp only [fmtChildren] at h
    obtain ⟨s, hs, h2⟩ := optBind_eq_some h
    obtain ⟨rest, hrest, h3⟩ := optBind_eq_some h2
    simp only [Option.pure_def, Option.some.injEq] at h3
    obtain ⟨renders, hall, hjoin⟩ := fmtChildren_concat esc disp parent allP xs rest hrest
    refine ⟨s :: renders, ?_, ?_⟩
    · simp only [XmlList.toList]
      exact List.Forall₂.cons hs hall
    · simp [strConcat, h3.symm, hjoin]

/-- C8: rendering emits a self-closed tag exactly when the child list is
empty; otherwise the open part is followed by `>`, every child rendered in
document order, and an explicit close tag. -/
theorem fmt_elem_self_closing (esc : String → String) (disp : Xml → String)
    (el : Element) (parent : Option Element) (base : List (String × String))
    (s : String) (h : fmt_elem esc disp el parent base = some s) :
    (el.children = .nil →
      ∃ pre, openPart esc el parent base = some pre ∧ s = pre ++ "/>") ∧
    (el.children ≠ .nil →
      ∃ pre renders close,
        openPart esc el parent base = some pre ∧
        List.Forall₂ (fun x r => fmtChild esc disp el (el.prefixes ++ base) x = some r)
          el.children.toList renders ∧
        closePart el (el.prefixes ++ base) = some close ∧
        (el.ns = el.defaultNs → close = "</" ++ el.name ++ ">") ∧
        s = pre ++ ">" ++ strConcat renders ++ close) := by
  cases el with
  | mk nm ns attrs children pfx dns =>
    simp only [fmt_elem] at h
    obtain ⟨pre, hpre, h2⟩ := optBind_eq_some h
    cases children with
    | nil =>
      rw [if_pos (show XmlList.isEmpty XmlList.nil = true from rfl)] at h2
      simp only [Option.pure_def, Option.some.injEq] at h2
      constructor
      · intro _
        exact ⟨pre, hpre, h2.symm⟩
      · intro hne
        exact absurd rfl hne
    | cons x xs =>
      rw [if_neg (show ¬XmlList.isEmpty (XmlList.cons x xs) = true by
        simp [XmlList.isEmpty])] at h2
      obtain ⟨body, hbody, h3⟩ := optBind_eq_some h2
      obtain ⟨close, hclose, h4⟩ := optBind_eq_some h3
      simp only [Option.pure_def, Option.some.injEq] at h4
      constructor
      · intro hnil
        exact XmlList.noConfusion hnil
      · intro _
        obtain ⟨renders, hall, hjoin⟩ :=
          fmtChildren_concat esc disp _ (pfx ++ base) _ body hbody
        refine ⟨pre, renders, close, hpre, hall, hclose, ?_, ?_⟩
        · intro hns
          simp only [Element.ns, Element.defaultNs] at hns
          simp [closePart, hns] at hclose
          simp only [Element.name]
          exact hclose.symm
        · rw [← h4, hjoin]

theorem fmt_elem_self_closing_witness :
    (Element.children (.mk "a" none [] (.cons (.characterNode "T") .nil) [] none) = .nil →
      ∃ pre,
        openPart (fun s => s) (.mk "a" none [] (.cons (.characterNode "T") .nil) [] none)
            none [] = some pre ∧
          "<a>X</a>" = pre ++ "/>") ∧
    (Element.children (.mk "a" none [] (.cons (.characterNode "T") .nil) [] none) ≠ .nil →
      ∃ pre renders close,
        openPart (fun s => s) (.mk "a" none [] (.cons (.characterNode "T") .nil) [] none)
            none [] = some pre ∧
        List.Forall₂
          (fun x r =>
            fmtChild (fun s => s) (fun _ => "X")
                (.mk "a" none [] (.cons (.characterNode "T") .nil) [] none)
                (Element.prefixes (.mk "a" none [] (.cons (.characterNode "T") .nil) [] none) ++ [])
                x = some r)
          (Element.children (.mk "a" none [] (.cons (.characterNode "T") .nil) [] none)).toList
          renders ∧
        closePart (.mk "a" none [] (.cons (.characterNode "T") .nil) [] none)
            (Element.prefixes (.mk "a" none [] (.cons (.characterNode "T") .nil) [] none) ++ []) =
          some close ∧
        (Element.ns (.mk "a" none [] (.cons (.characterNode "T") .nil) [] none) =
            Element.defaultNs (.mk "a" none [] (.cons (.characterNode "T") .nil) [] none) →
          close = "</" ++ Element.name (.mk "a" none [] (.cons (.characterNode "T") .nil) [] none) ++ ">") ∧
        "<a>X</a>" = pre ++ ">" ++ strConcat renders ++ close) :=
  fmt_elem_self_closing (fun s => s) (fun _ => "X")
    (.mk "a" none [] (.cons (.characterNode "T") .nil) [] none) none [] "<a>X</a>" rfl

/-! ## C7: the serializer fails only when the sink does -/

theorem excBind_ok {E α β : Type} (a : α) (f : α → Except E β) :
    (Except.ok a >>= f : Except E β) = f a := rfl

theorem exceptIsOk_iff {E α : Type} (x : Except E α) :
    x.isOk = true ↔ ∃ v, x = .ok v := by
  cases x <;> simp [Except.isOk, Except.toBool]

theorem sinkCheck_of_none {E : Type} {oracle : SinkOp → Option E}
    (hor : ∀ op, oracle op = none) (op : SinkOp) : sinkCheck oracle op = .ok () := by
  simp [sinkCheck, hor]

theorem emitEntries_of_none {E : Type} {oracle : SinkOp → Option E}
    (hor : ∀ op, oracle op = none) : ∀ l, emitEntries oracle l = .ok ()
  | [] => rfl
  | (k, v) :: rest => by
    show (sinkCheck oracle (.entry k v) >>= fun _ => emitEntries oracle rest) = .ok ()
    rw [sinkCheck_of_none hor, excBind_ok]
    exact emitEntries_of_none hor rest

theorem typeGuessValE_of_none {E : Type} {oracle : SinkOp → Option E}
    (hor : ∀ op, oracle op = none) (val : String) :
    typeGuessValE oracle val = .ok (type_guess_val val) := by
  unfold typeGuessValE type_guess_val
  cases h1 : parseU64 val with
  | some n => simp [sinkCheck_of_none hor, excBind_ok]
  | none =>
    cases h2 : parseBool val with
    | some b => simp [sinkCheck_of_none hor, excBind_ok]
    | none =>
      by_cases h3 : parsesF32 val = true
      · simp [h3, sinkCheck_of_none hor, excBind_ok]
      · simp [h3, sinkCheck_of_none hor, excBind_ok]

mutual
theorem serializeElemE_isOk_aux {E : Type} (π : GroupOrder) (oracle : SinkOp → Option E)
    (hor : ∀ op, oracle op = none) :
    ∀ el : Element, (serializeElemE π oracle el).isOk = true
  | .mk nm ns attrs children pfx dns => by
    rw [serializeElemE]
    by_cases h1 : attrs.length = 0 ∧ children.length = 0
    · rw [if_pos h1]
      simp [Except.isOk, Except.toBool, sinkCheck_of_none hor, excBind_ok]
    · rw [if_neg h1]
      by_cases h2 : (groupPairs (elemKids children)).length = 0 ∧
          (collectComments children).length = 0 ∧ attrs.length = 0
      · rw [if_pos h2]
        cases h3 : collectTexts children with
        | nil =>
          simp [Except.isOk, Except.toBool, sinkCheck_of_none hor, excBind_ok]
        | cons t rest =>
          cases rest with
          | nil =>
            simp [Except.isOk, Except.toBool, typeGuessValE_of_none hor]
          | cons t2 r2 =>
            simp [Except.isOk, Except.toBool, sinkCheck_of_none hor, excBind_ok]
      · rw [if_neg h2]
        obtain ⟨kidVals, hkids⟩ :=
          (exceptIsOk_iff _).mp (serializeKidsE_isOk_aux π oracle hor children)
        simp [Except.isOk, Except.toBool, sinkCheck_of_none hor, excBind_ok,
          emitEntries_of_none hor, hkids]

theorem serializeKidsE_isOk_aux {E : Type} (π : GroupOrder) (oracle : SinkOp → Option E)
    (hor : ∀ op, oracle op = none) :
    ∀ l : XmlList, (serializeKidsE π oracle l).isOk = true
  | .nil => rfl
  | .cons x xs => by
    cases x with
    | elementNode el =>
      obtain ⟨v, hv⟩ :=
        (exceptIsOk_iff _).mp (serializeElemE_isOk_aux π oracle hor el)
      obtain ⟨vs, hvs⟩ :=
        (exceptIsOk_iff _).mp (serializeKidsE_isOk_aux π oracle hor xs)
      simp [serializeKidsE, Except.isOk, Except.toBool, hv, hvs, excBind_ok]
    | characterNode t =>
      simpa [serializeKidsE] using serializeKidsE_isOk_aux π oracle hor xs
    | cdataNode t =>
      simpa [serializeKidsE] using serializeKidsE_isOk_aux π oracle hor xs
    | commentNode t =>
      simpa [serializeKidsE] using serializeKidsE_isOk_aux π oracle hor xs
    | piNode t =>
      simpa [serializeKidsE] using serializeKidsE_isOk_aux π oracle hor xs
end

/-- C7: for every element and every sink, the serializer returns an error
only when the sink itself produces one — whenever every sink call succeeds,
serialization of any element succeeds; unparseable attribute or text values
never fail because every type guess degrades to emitting the original
string. -/
theorem serialize_errors_only_from_sink {E : Type} (π : GroupOrder)
    (oracle : SinkOp → Option E) (hor : ∀ op, oracle op = none) (el : Element) :
    ∃ v, serializeElemE π oracle el = .ok v :=
  (exceptIsOk_iff _).mp (serializeElemE_isOk_aux π oracle hor el)

theorem serialize_errors_only_from_sink_witness :
    (∀ op : SinkOp, (fun _ : SinkOp => (none : Option Unit)) op = none) ∧
      ∃ v, serializeElemE orderId (fun _ : SinkOp => (none : Option Unit))
          (.mk "a" none [(("k", none), "x y z")] (.cons (.cdataNode "c") .nil) [] none) =
        .ok v :=
  ⟨fun _ => rfl,
    serialize_errors_only_from_sink orderId (fun _ => none) (fun _ => rfl)
      (.mk "a" none [(("k", none), "x y z")] (.cons (.cdataNode "c") .nil) [] none)⟩

/-! ## C2: grouping of element children -/

theorem lookup_map_collect {V : Type} (k k2 : String) (v : V) :
    ∀ acc : List (String × List V),
      List.lookup k (map_collect acc k2 v) =
        if k = k2 then some ((List.lookup k acc).getD [] ++ [v])
        else List.lookup k acc
  | [] => by
    by_cases h : k = k2
    · simp [map_collect, List.lookup, h]
    · simp [map_collect, List.lookup, h, beq_false_of_ne h]
  | (a, vs) :: rest => by
    by_cases ha : a = k2
    · subst ha
      by_cases hk : k = a
      · subst hk
        simp [map_collect, List.lookup]
      · simp [map_collect, List.lookup, hk, Ne.symm, beq_false_of_ne hk]
    · by_cases hk : k = a
      · subst hk
        simp [map_collect, List.lookup, ha, Ne.symm ha]
      · simp [map_collect, List.lookup, ha, beq_false_of_ne hk,
          lookup_map_collect k k2 v rest]

theorem lookup_groupPairsAux_some {V : Type} (k : String) :
    ∀ (l : List (String × V)) (acc : List (String × List V)) (vs : List V),
      List.lookup k acc = some vs →
      List.lookup k (groupPairsAux acc l) =
        some (vs ++ (l.filter fun p => p.1 = k).map Prod.snd)
  | [], acc, vs => by
    intro h
    simp [groupPairsAux, h]
  | (k2, v) :: rest, acc, vs => by
    intro h
    by_cases hk : k = k2
    · subst hk
      have h1 : List.lookup k (map_collect acc k v) = some (vs ++ [v]) := by
        rw [lookup_map_collect, if_pos rfl, h]
        rfl
      have h2 := lookup_groupPairsAux_some k rest (map_collect acc k v) (vs ++ [v]) h1
      simp [groupPairsAux, h2, List.filter_cons]
    · have h1 : List.lookup k (map_collect acc k2 v) = some vs := by
        rw [lookup_map_collect, if_neg hk, h]
      have h2 := lookup_groupPairsAux_some k rest (map_collect acc k2 v) vs h1
      simp [groupPairsAux, h2, List.filter_cons, Ne.symm hk, hk]

theorem lookup_groupPairsAux_none {V : Type} (k : String) :
    ∀ (l : List (String × V)) (acc : List (String × List V)),
      List.lookup k acc = none →
      List.lookup k (groupPairsAux acc l) =
        if (l.filter fun p => p.1 = k).isEmpty then none
        else some ((l.filter fun p => p.1 = k).map Prod.snd)
  | [], acc => by
    intro h
    simp [groupPairsAux, h]
  | (k2, v) :: rest, acc => by
    intro h
    by_cases hk : k = k2
    · subst hk
      have h1 : List.lookup k (map_collect acc k v) = some [v] := by
        rw [lookup_map_collect, if_pos rfl, h]
        rfl
      have h2 := lookup_groupPairsAux_some k rest (map_collect acc k v) [v] h1
      simp [groupPairsAux, h2, List.filter_cons]
    · have h1 : List.lookup k (map_collect acc k2 v) = none := by
        rw [lookup_map_collect, if_neg hk, h]
      have h2 := lookup_groupPairsAux_none k rest (map_collect acc k2 v) h1
      have hfc : List.filter (fun p => decide (p.1 = k)) ((k2, v) :: rest) =
          List.filter (fun p => decide (p.1 = k)) rest := by
        simp [List.filter_cons, eq_false (Ne.symm hk)]
      simp only [groupPairsAux, h2, hfc]

/-- Looking a tag up in the grouped list: the members of the group are the
values whose key matches, in their original relative order. -/
theorem lookup_groupPairs {V : Type} (k : String) (l : List (String × V)) :
    List.lookup k (groupPairs l) =
      if (l.filter fun p => p.1 = k).isEmpty then none
      else some ((l.filter fun p => p.1 = k).map Prod.snd) :=
  lookup_groupPairsAux_none k l [] rfl

theorem map_collect_map {V W : Type} (f : V → W) (k : String) (v : V) :
    ∀ acc : List (String × List V),
      map_collect (acc.map fun q => (q.1, q.2.map f)) k (f v) =
        (map_collect acc k v).map fun q => (q.1, q.2.map f)
  | [] => by simp [map_collect]
  | (a, vs) :: rest => by
    by_cases ha : a = k
    · simp [map_collect, ha]
    · simp [map_collect, ha, map_collect_map f k v rest]

theorem groupPairsAux_map {V W : Type} (f : V → W) :
    ∀ (l : List (String × V)) (acc : List (String × List V)),
      groupPairsAux (acc.map fun q => (q.1, q.2.map f)) (l.map fun p => (p.1, f p.2)) =
        (groupPairsAux acc l).map fun q => (q.1, q.2.map f)
  | [], acc => by simp [groupPairsAux]
  | (k, v) :: rest, acc => by
    simp only [List.map_cons, groupPairsAux, map_collect_map f k v acc,
      groupPairsAux_map f rest (map_collect acc k v)]

/-- Grouping commutes with mapping the values: grouping pre-serialized
children equals serializing the members of the grouped children. -/
theorem groupPairs_map {V W : Type} (f : V → W) (l : List (String × V)) :
    groupPairs (l.map fun p => (p.1, f p.2)) =
      (groupPairs l).map fun q => (q.1, q.2.map f) :=
  groupPairsAux_map f l []

theorem groupPairsAux_ne_nil {V : Type} :
    ∀ (l : List (String × V)) (acc : List (String × List V)),
      acc ≠ [] ∨ l ≠ [] → groupPairsAux acc l ≠ []
  | [], acc => by
    intro h
    simp [groupPairsAux]
    rcases h with h | h
    · exact h
    · exact absurd rfl h
  | (k, v) :: rest, acc => by
    intro _
    refine groupPairsAux_ne_nil rest (map_collect acc k v) (Or.inl ?_)
    cases acc with
    | nil => simp [map_collect]
    | cons a as =>
      cases a with
      | mk a1 a2 =>
        simp only [map_collect]
        split <;> simp

theorem lookup_map_values {V W : Type} (g : V → W) (k : String) :
    ∀ l : List (String × V),
      List.lookup k (l.map fun q => (q.1, g q.2)) = (List.lookup k l).map g
  | [] => rfl
  | (a, v) :: rest => by
    by_cases ha : k = a
    · simp [List.lookup, ha]
    · simp [List.lookup, beq_false_of_ne ha, lookup_map_values g k rest]

theorem noFail_none : ∀ op, noFail op = none := fun _ => rfl

theorem serializeKidsE_noFail (π : GroupOrder) :
    ∀ l : XmlList,
      serializeKidsE π noFail l =
        .ok ((elemKids l).map fun p => (p.1, serializeElem π p.2))
  | .nil => rfl
  | .cons x xs => by
    cases x with
    | elementNode el =>
      cases hres : serializeElemE π noFail el with
      | error e => exact e.elim
      | ok v =>
        have hv : serializeElem π el = v := by
          simp [serializeElem, hres]
        simp [serializeKidsE, elemKids, hres, excBind_ok,
          serializeKidsE_noFail π xs, hv]
    | characterNode t => simp [serializeKidsE, elemKids, serializeKidsE_noFail π xs]
    | cdataNode t => simp [serializeKidsE, elemKids, serializeKidsE_noFail π xs]
    | commentNode t => simp [serializeKidsE, elemKids, serializeKidsE_noFail π xs]
    | piNode t => simp [serializeKidsE, elemKids, serializeKidsE_noFail π xs]

theorem xmlList_length_zero : ∀ l : XmlList, l.length = 0 → l = .nil
  | .nil, _ => rfl
  | .cons x xs, h => by simp [XmlList.length] at h

/-- The closed form of a serialization that takes the object path. -/
theorem serializeElem_map_path (π : GroupOrder) (el : Element)
    (h2 : ¬((groupPairs (elemKids el.children)).length = 0 ∧
        (collectComments el.children).length = 0 ∧ el.attributes.length = 0)) :
    serializeElem π el =
      .map ((el.attributes.map fun p => type_guess p.1.1 p.2).flatten
        ++ ((π (groupPairs ((elemKids el.children).map fun p =>
              (p.1, serializeElem π p.2)))).map fun p => groupEntry p.1 p.2).flatten
        ++ commentEntries (collectComments el.children)
        ++ textEntries (collectTexts el.children)) := by
  cases el with
  | mk nm ns attrs children pfx dns =>
    simp only [Element.children, Element.attributes] at h2 ⊢
    have h1 : ¬(attrs.length = 0 ∧ children.length = 0) := by
      rintro ⟨ha, hc⟩
      have := xmlList_length_zero children hc
      subst this
      exact h2 ⟨rfl, rfl, ha⟩
    unfold serializeElem
    rw [serializeElemE, if_neg h1, if_neg h2]
    simp [sinkCheck_of_none noFail_none, excBind_ok, emitEntries_of_none noFail_none,
      serializeKidsE_noFail π children, excBind_ok]
    rfl

/-- C2 counterexample: the element-child groups are emitted in the hash
map's unspecified iteration order, not necessarily in order of first
appearance of the tag names — reversing the order is an admissible
permutation under which `<r><b/><a/></r>` serializes with the `a` group
before the `b` group. -/
theorem serialize_group_order_cex :
    ¬ ∀ (π : GroupOrder), (∀ l, (π l).Perm l) →
      serializeElem π (.mk "r" none []
          (.cons (.elementNode (.mk "b" none [] .nil [] none))
            (.cons (.elementNode (.mk "a" none [] .nil [] none)) .nil)) [] none) =
        .map [("b", .unit), ("a", .unit)] := by
  intro hclaim
  have h := hclaim (fun l => l.reverse) (fun l => l.reverse_perm)
  have h2 : serializeElem (fun l => l.reverse) (.mk "r" none []
      (.cons (.elementNode (.mk "b" none [] .nil [] none))
        (.cons (.elementNode (.mk "a" none [] .nil [] none)) .nil)) [] none) =
      .map [("a", .unit), ("b", .unit)] := rfl
  rw [h2] at h
  injection h with h3
  injection h3 with h4 h5
  injection h4 with h6 h7
  exact absurd h6 (by decide)

/-- C2 amended: on the object path the element-child groups are emitted in
an unspecified permutation (the hash map's iteration order) of their
first-appearance grouping, not necessarily in first-appearance order; each
group holds the serialized values of the children bearing its tag in
document order, and is emitted as the single member's value when it has
exactly one member, else as the sequence of all member values. -/
theorem serialize_child_groups (π : GroupOrder) (hπ : ∀ l, (π l).Perm l)
    (el : Element) (hne : elemKids el.children ≠ []) :
    (∃ pre post, serializeElem π el =
        .map (pre ++ ((π (serGroups π el)).map fun p => groupEntry p.1 p.2).flatten ++ post)) ∧
    (π (serGroups π el)).Perm (serGroups π el) ∧
    serGroups π el =
      ((groupPairs (elemKids el.children)).map fun q =>
        (q.1, q.2.map (fun e => serializeElem π e))) ∧
    (∀ k vs, List.lookup k (serGroups π el) = some vs →
      ∃ els, els = (((elemKids el.children).filter fun p => p.1 = k).map Prod.snd) ∧
        els ≠ [] ∧ vs = els.map (fun e => serializeElem π e) ∧
        (∀ v, vs = [v] → groupEntry k vs = [(k, v)]) ∧
        (∀ v1 v2 r, vs = v1 :: v2 :: r → groupEntry k vs = [(k, .seq vs)])) ∧
    (∀ k, (List.lookup k (serGroups π el)).isSome = true ↔
      k ∈ (elemKids el.children).map Prod.fst) := by
  have hobj : ¬((groupPairs (elemKids el.children)).length = 0 ∧
      (collectComments el.children).length = 0 ∧ el.attributes.length = 0) := by
    rintro ⟨hg, -, -⟩
    exact groupPairsAux_ne_nil (elemKids el.children) [] (Or.inr hne)
      (List.length_eq_zero.mp hg)
  have hmap : serGroups π el =
      ((groupPairs (elemKids el.children)).map fun q =>
        (q.1, q.2.map (fun e => serializeElem π e))) :=
    groupPairs_map (fun e => serializeElem π e) (elemKids el.children)
  refine ⟨?_, hπ _, hmap, ?_, ?_⟩
  · refine ⟨(el.attributes.map fun p => type_guess p.1.1 p.2).flatten,
      commentEntries (collectComments el.children) ++
        textEntries (collectTexts el.children), ?_⟩
    rw [serializeElem_map_path π el hobj]
    simp [serGroups, List.append_assoc]
  · intro k vs hvs
    rw [hmap, lookup_map_values] at hvs
    cases hlk : List.lookup k (groupPairs (elemKids el.children)) with
    | none => rw [hlk] at hvs; simp at hvs
    | some els0 =>
      rw [hlk] at hvs
      simp only [Option.map_some', Option.some.injEq] at hvs
      rw [lookup_groupPairs] at hlk
      by_cases hemp : ((elemKids el.children).filter fun p => p.1 = k).isEmpty = true
      · rw [if_pos hemp] at hlk
        exact absurd hlk (by simp)
      · rw [if_neg hemp] at hlk
        simp only [Option.some.injEq] at hlk
        refine ⟨els0, hlk.symm, ?_, hvs.symm, ?_, ?_⟩
        · intro hnil
          rw [← hlk] at hnil
          rw [List.map_eq_nil_iff] at hnil
          rw [List.isEmpty_iff] at hemp
          exact hemp hnil
        · intro v hv
          rw [hv]
          rfl
        · intro v1 v2 r hv
          rw [hv]
          rfl
  · intro k
    rw [hmap, lookup_map_values]
    rw [lookup_groupPairs]
    by_cases hemp : ((elemKids el.children).filter fun p => p.1 = k).isEmpty = true
    · rw [if_pos hemp]
      simp only [List.isEmpty_iff, List.filter_eq_nil_iff, decide_eq_true_eq] at hemp
      simp only [Option.map_none', Option.isSome_none, List.mem_map]
      refine iff_of_false (by simp) ?_
      rintro ⟨p, hp, hpk⟩
      exact hemp p hp hpk
    · rw [if_neg hemp]
      simp only [List.isEmpty_iff, List.filter_eq_nil_iff, decide_eq_true_eq] at hemp
      push_neg at hemp
      obtain ⟨p, hp, hpk⟩ := hemp
      simp only [Option.map_some', Option.isSome_some, List.mem_map]
      exact iff_of_true trivial ⟨p, hp, hpk⟩

theorem serialize_child_groups_witness :
    (∀ l : List (String × List SValue), (orderId l).Perm l) ∧
    elemKids (Element.children (Element.mk "w" none [] (XmlList.cons (Xml.elementNode (Element.mk "b" none [] XmlList.nil [] none)) (XmlList.cons (Xml.elementNode (Element.mk "a" none [] XmlList.nil [] none)) XmlList.nil)) [] none)) ≠ [] ∧
    ((∃ pre post, serializeElem orderId (Element.mk "w" none [] (XmlList.cons (Xml.elementNode (Element.mk "b" none [] XmlList.nil [] none)) (XmlList.cons (Xml.elementNode (Element.mk "a" none [] XmlList.nil [] none)) XmlList.nil)) [] none) =
        .map (pre ++ ((orderId (serGroups orderId (Element.mk "w" none [] (XmlList.cons (Xml.elementNode (Element.mk "b" none [] XmlList.nil [] none)) (XmlList.cons (Xml.elementNode (Element.mk "a" none [] XmlList.nil [] none)) XmlList.nil)) [] none))).map fun p => groupEntry p.1 p.2).flatten ++ post)) ∧
      (orderId (serGroups orderId (Element.mk "w" none [] (XmlList.cons (Xml.elementNode (Element.mk "b" none [] XmlList.nil [] none)) (XmlList.cons (Xml.elementNode (Element.mk "a" none [] XmlList.nil [] none)) XmlList.nil)) [] none))).Perm (serGroups orderId (Element.mk "w" none [] (XmlList.cons (Xml.elementNode (Element.mk "b" none [] XmlList.nil [] none)) (XmlList.cons (Xml.elementNode (Element.mk "a" none [] XmlList.nil [] none)) XmlList.nil)) [] none)) ∧
      serGroups orderId (Element.mk "w" none [] (XmlList.cons (Xml.elementNode (Element.mk "b" none [] XmlList.nil [] none)) (XmlList.cons (Xml.elementNode (Element.mk "a" none [] XmlList.nil [] none)) XmlList.nil)) [] none) =
        ((groupPairs (elemKids (Element.children (Element.mk "w" none [] (XmlList.cons (Xml.elementNode (Element.mk "b" none [] XmlList.nil [] none)) (XmlList.cons (Xml.elementNode (Element.mk "a" none [] XmlList.nil [] none)) XmlList.nil)) [] none)))).map fun q =>
          (q.1, q.2.map (fun e => serializeElem orderId e))) ∧
      (∀ k vs, List.lookup k (serGroups orderId (Element.mk "w" none [] (XmlList.cons (Xml.elementNode (Element.mk "b" none [] XmlList.nil [] none)) (XmlList.cons (Xml.elementNode (Element.mk "a" none [] XmlList.nil [] none)) XmlList.nil)) [] none)) = some vs →
        ∃ els, els = (((elemKids (Element.children (Element.mk "w" none [] (XmlList.cons (Xml.elementNode (Element.mk "b" none [] XmlList.nil [] none)) (XmlList.cons (Xml.elementNode (Element.mk "a" none [] XmlList.nil [] none)) XmlList.nil)) [] none))).filter fun p => p.1 = k).map Prod.snd) ∧
          els ≠ [] ∧ vs = els.map (fun e => serializeElem orderId e) ∧
          (∀ v, vs = [v] → groupEntry k vs = [(k, v)]) ∧
          (∀ v1 v2 r, vs = v1 :: v2 :: r → groupEntry k vs = [(k, .seq vs)])) ∧
      (∀ k, (List.lookup k (serGroups orderId (Element.mk "w" none [] (XmlList.cons (Xml.elementNode (Element.mk "b" none [] XmlList.nil [] none)) (XmlList.cons (Xml.elementNode (Element.mk "a" none [] XmlList.nil [] none)) XmlList.nil)) [] none))).isSome = true ↔
        k ∈ (elemKids (Element.children (Element.mk "w" none [] (XmlList.cons (Xml.elementNode (Element.mk "b" none [] XmlList.nil [] none)) (XmlList.cons (Xml.elementNode (Element.mk "a" none [] XmlList.nil [] none)) XmlList.nil)) [] none))).map Prod.fst)) :=
  ⟨fun l => List.Perm.refl l, by simp [Element.children, elemKids],
    serialize_child_groups orderId (fun l => List.Perm.refl l) (Element.mk "w" none [] (XmlList.cons (Xml.elementNode (Element.mk "b" none [] XmlList.nil [] none)) (XmlList.cons (Xml.elementNode (Element.mk "a" none [] XmlList.nil [] none)) XmlList.nil)) [] none)
      (by simp [Element.children, elemKids])⟩
